import Mathlib

/-!
Verification of the core logic of `src/main.py` (daily-IPO monitor).

Shallow embedding conventions:
* Python strings are `List Char` (`PyStr`); Python `None` is `Option.none`.
* A record field of the incoming JSON mapping is `Option (Option PyStr)`:
  the outer `Option` is key presence (`dict.get`), the inner one is a JSON
  `null` versus a string value.  Numeric JSON values are modelled by their
  `str()` rendering, which is how `parse_price_range` consumes them anyway.
* Python floats are modelled by `PyF`: an exact rational, `inf`, `-inf`, or
  `nan`, with IEEE-style multiplication and comparison.  Rounding of binary
  doubles is outside the model (the program's claims are structural, not
  about rounding), as are underscore separators and non-ASCII case mapping,
  none of which the claims depend on.
* Fallible code returns `Except String α`; the string names the Python
  exception class that would be raised (`"IndexError"`, `"ValueError"`,
  `"TypeError"`, `"OverflowError"`).
-/

abbrev PyStr := List Char

/-- Python float values: finite (exact rational), infinities, NaN. -/
inductive PyF where
  | fin (q : ℚ)
  | inf
  | ninf
  | nan
deriving DecidableEq

/-- IEEE-style multiplication on `PyF` (anything with NaN is NaN,
`±inf * 0 = NaN`, signs multiply). -/
def pyMul : PyF → PyF → PyF
  | .nan, _ => .nan
  | _, .nan => .nan
  | .fin a, .fin b => .fin (a * b)
  | .fin a, .inf => if 0 < a then .inf else if a < 0 then .ninf else .nan
  | .fin a, .ninf => if 0 < a then .ninf else if a < 0 then .inf else .nan
  | .inf, .fin b => if 0 < b then .inf else if b < 0 then .ninf else .nan
  | .ninf, .fin b => if 0 < b then .ninf else if b < 0 then .inf else .nan
  | .inf, .inf => .inf
  | .inf, .ninf => .ninf
  | .ninf, .inf => .ninf
  | .ninf, .ninf => .inf

/-- IEEE-style strict order on `PyF`: every comparison with NaN is false. -/
def pyLt : PyF → PyF → Bool
  | .nan, _ => false
  | _, .nan => false
  | .fin a, .fin b => decide (a < b)
  | .fin _, .inf => true
  | .fin _, .ninf => false
  | .inf, _ => false
  | .ninf, .ninf => false
  | .ninf, _ => true

/-- IEEE-style equality on `PyF`: `NaN == NaN` is false (as in Python). -/
def pyEqF : PyF → PyF → Bool
  | .nan, _ => false
  | _, .nan => false
  | .fin a, .fin b => decide (a = b)
  | .inf, .inf => true
  | .ninf, .ninf => true
  | _, _ => false

/-- Python `a > b` on floats. -/
def pyGt (a b : PyF) : Bool := pyLt b a

/-- Python `a <= b` on floats. -/
def pyLe (a b : PyF) : Bool := pyLt a b || pyEqF a b

/-- Negation of a Python float. -/
def pyNegF : PyF → PyF
  | .fin q => .fin (-q)
  | .inf => .ninf
  | .ninf => .inf
  | .nan => .nan

/-- The whitespace set of Python's `str.strip()` restricted to ASCII:
space, tab, newline, carriage return, vertical tab, form feed. -/
def pyWS (c : Char) : Bool :=
  c.toNat == 32 || c.toNat == 9 || c.toNat == 10 || c.toNat == 13 ||
  c.toNat == 11 || c.toNat == 12

/-- Left strip (Python `str.lstrip()`). -/
def lstrip (l : PyStr) : PyStr := l.dropWhile pyWS

/-- Right strip (Python `str.rstrip()`). -/
def rstrip (l : PyStr) : PyStr := (l.reverse.dropWhile pyWS).reverse

/-- Python `str.strip()`. -/
def pyStrip (l : PyStr) : PyStr := rstrip (lstrip l)

/-- Split a character list at every occurrence of `sep`
(Python `str.split(sep)` for a one-character separator: `"".split` gives
`[""]`, and consecutive separators give empty pieces). -/
def splitOnChar (sep : Char) : PyStr → List PyStr
  | [] => [[]]
  | c :: cs =>
    if c = sep then [] :: splitOnChar sep cs
    else
      match splitOnChar sep cs with
      | [] => [[c]]
      | p :: ps => (c :: p) :: ps

/-- Does `needle` occur at the head of `hay`? -/
def pyStarts : PyStr → PyStr → Bool
  | [], _ => true
  | _ :: _, [] => false
  | c :: n, d :: h => c == d && pyStarts n h

/-- Python's substring test `needle in hay`. -/
def pyIn (needle : PyStr) : PyStr → Bool
  | [] => needle.isEmpty
  | d :: h => pyStarts needle (d :: h) || pyIn needle h

/-- Numeric value of a digit string (most significant first). -/
def digitsVal (l : PyStr) : ℕ := l.foldl (fun a c => 10 * a + (c.toNat - 48)) 0

/-- Mantissa of a float literal: `digits`, `digits.`, `.digits` or
`digits.digits` (at least one digit overall). -/
def parseMantissa (l : PyStr) : Option ℚ :=
  match splitOnChar '.' l with
  | [w] =>
    if !w.isEmpty && w.all Char.isDigit then some ((digitsVal w : ℚ)) else none
  | [w, fr] =>
    if (!w.isEmpty || !fr.isEmpty) && w.all Char.isDigit && fr.all Char.isDigit
    then some ((digitsVal w : ℚ) + (digitsVal fr : ℚ) / (10 : ℚ) ^ fr.length)
    else none
  | _ => none

/-- Exponent part of a float literal: optionally signed digit string. -/
def parseExpPart (l : PyStr) : Option ℤ :=
  match l with
  | '+' :: r => if !r.isEmpty && r.all Char.isDigit then some ((digitsVal r : ℤ)) else none
  | '-' :: r => if !r.isEmpty && r.all Char.isDigit then some (-(digitsVal r : ℤ)) else none
  | r => if !r.isEmpty && r.all Char.isDigit then some ((digitsVal r : ℤ)) else none

/-- Split a float literal at the first `e`/`E`, if any. -/
def splitE : PyStr → PyStr × Option PyStr
  | [] => ([], none)
  | c :: r =>
    if c = 'e' ∨ c = 'E' then ([], some r)
    else
      let (m, ex) := splitE r
      (c :: m, ex)

/-- Finite decimal float literal (no sign): mantissa with optional exponent. -/
def parseDecimal (l : PyStr) : Option ℚ :=
  match splitE l with
  | (m, none) => parseMantissa m
  | (m, some ex) =>
    match parseMantissa m, parseExpPart ex with
    | some q, some e => some (q * (10 : ℚ) ^ e)
    | _, _ => none

/-- Unsigned part of Python `float(string)`: `inf`/`infinity`/`nan`
(case-insensitive) or a finite decimal literal. -/
def parseUnsignedF (l : PyStr) : Option PyF :=
  let low := l.map Char.toLower
  if low = "inf".toList || low = "infinity".toList then some .inf
  else if low = "nan".toList then some .nan
  else (parseDecimal l).map .fin

/-- Sign handling of Python `float(string)` after stripping. -/
def pyFloatCore (t : PyStr) : Option PyF :=
  match t with
  | [] => parseUnsignedF []
  | c :: r =>
    if c = '+' then parseUnsignedF r
    else if c = '-' then (parseUnsignedF r).map pyNegF
    else parseUnsignedF (c :: r)

/-- Python `float(string)`: `none` models a `ValueError`. -/
def pyFloat (l : PyStr) : Option PyF := pyFloatCore (pyStrip l)

/-- `str(price_raw).strip().replace("$", "")` from `parse_price_range`. -/
def cleanPrice (raw : PyStr) : PyStr := (pyStrip raw).filter (fun c => c != '$')

/-- `[p.strip() for p in s.split("-") if p.strip()]` from `parse_price_range`. -/
def partsOf (s : PyStr) : List PyStr :=
  ((splitOnChar '-' s).map pyStrip).filter (fun p => !p.isEmpty)

/-- `parse_price_range` (src/main.py lines 25-45).  `.error` models the
uncaught exception raised by `parts[-1]` when the filtered fragment list is
empty (only `ValueError` is caught by the source). -/
def parse_price_range (price_raw : Option PyStr) : Except String (PyF × PyF) :=
  match price_raw with
  | none => .ok (.fin 0, .fin 0)
  | some raw =>
    if cleanPrice raw = [] ∨ cleanPrice raw = ['-'] then .ok (.fin 0, .fin 0)
    else if '-' ∈ cleanPrice raw then
      match partsOf (cleanPrice raw) with
      | p0 :: p1 :: _ =>
        match pyFloat p0 with
        | none => .ok (.fin 0, .fin 0)
        | some low =>
          match pyFloat p1 with
          | none => .ok (.fin 0, .fin 0)
          | some high => .ok (low, high)
      | [p0] =>
        match pyFloat p0 with
        | none => .ok (.fin 0, .fin 0)
        | some v => .ok (v, v)
      | [] => .error "IndexError"
    else
      match pyFloat (cleanPrice raw) with
      | none => .ok (.fin 0, .fin 0)
      | some v => .ok (v, v)

/-- `float(shares) if shares is not None else 0.0` with
`except (TypeError, ValueError): shares_f = 0.0` (src/main.py lines 48-51). -/
def sharesFloat (shares : Option PyStr) : PyF :=
  match shares with
  | none => .fin 0
  | some s =>
    match pyFloat s with
    | some f => f
    | none => .fin 0

/-- `compute_offer` (src/main.py lines 47-56). -/
def compute_offer (price_raw shares : Option PyStr) : Except String (PyF × PyF) :=
  match parse_price_range price_raw with
  | .error e => .error e
  | .ok lh => .ok (pyMul lh.1 (sharesFloat shares), pyMul lh.2 (sharesFloat shares))

/-- Truncation toward zero: Python `int(<finite float>)`. -/
def pyTrunc (q : ℚ) : ℤ := if 0 ≤ q then ⌊q⌋ else -⌊-q⌋

/-- Python `int(float_value)`: raises `OverflowError` on infinities and
`ValueError` on NaN. -/
def pyInt : PyF → Except String ℤ
  | .fin q => .ok (pyTrunc q)
  | .inf => .error "OverflowError"
  | .ninf => .error "OverflowError"
  | .nan => .error "ValueError"

/-- `int(float(shares))` from src/main.py line 118 (`shares` is a Python
value: `None` raises `TypeError` inside `float`, an unparseable string
raises `ValueError` — neither is caught there). -/
def pyIntOfFloat (shares : Option PyStr) : Except String ℤ :=
  match shares with
  | none => .error "TypeError"
  | some s =>
    match pyFloat s with
    | none => .error "ValueError"
    | some f => pyInt f

/-- One listing record as returned by the calendar feed.  Outer `Option`:
is the key present; inner `Option`: JSON `null` versus a string value
(numeric JSON values are modelled by their `str()` rendering). -/
structure Ipo where
  date : Option (Option PyStr)
  symbol : Option (Option PyStr)
  name : Option (Option PyStr)
  exchange : Option (Option PyStr)
  status : Option (Option PyStr)
  price : Option (Option PyStr)
  numberOfShares : Option (Option PyStr)
  totalSharesValue : Option (Option PyStr)

/-- Python `dict.get(key, default)`. -/
def pyGet (field : Option (Option PyStr)) (default : Option PyStr) : Option PyStr :=
  field.getD default

/-- Python `x or ""` for an optional string (maps `None` to `""`). -/
def orEmpty : Option PyStr → PyStr
  | none => []
  | some s => s

/-- Python `str.lower()` (ASCII case mapping). -/
def pyLower (s : PyStr) : PyStr := s.map Char.toLower

/-- Python `str(value)` where the value is `None` or a string. -/
def pyStrOf : Option PyStr → PyStr
  | none => "None".toList
  | some s => s

/-- Python truthiness test for a `None`-or-string value (`not x`). -/
def pyFalsy : Option PyStr → Bool
  | none => true
  | some s => s.isEmpty

/-- `price_raw in (None, "", "-")` from src/main.py line 105. -/
def priceAbsent : Option PyStr → Bool
  | none => true
  | some s => s.isEmpty || s == ['-']

/-- `shares in (None, "")` from src/main.py line 105. -/
def sharesAbsent : Option PyStr → Bool
  | none => true
  | some s => s.isEmpty

/-- `THRESHOLD_USD = 200_000_000` (src/main.py line 10). -/
def THRESHOLD_USD : ℚ := 200000000

/-- The eligibility filter: src/main.py lines 90-116 (field extraction,
the four skip conditions, the offer computation and the threshold test).
`.ok true` means the record is admitted by the filter. -/
def eligible (today : PyStr) (ipo : Ipo) : Except String Bool :=
  let ipo_date := pyGet ipo.date (some "N/A".toList)
  let symbol := pyGet ipo.symbol none
  let exchange := pyGet ipo.exchange (some "N/A".toList)
  let status := pyLower (orEmpty (pyGet ipo.status (some "N/A".toList)))
  let price_raw := pyGet ipo.price none
  let shares := pyGet ipo.numberOfShares none
  if ipo_date ≠ some today then .ok false
  else if ¬(status = "expected".toList ∨ status = "priced".toList) then .ok false
  else if pyFalsy exchange = true ∨
      (pyIn "NASDAQ".toList (pyStrOf exchange) = false ∧
       pyIn "NYSE".toList (pyStrOf exchange) = false) then .ok false
  else if pyFalsy symbol = true ∨ priceAbsent price_raw = true ∨
      sharesAbsent shares = true then .ok false
  else
    match compute_offer price_raw shares with
    | .error e => .error e
    | .ok off => .ok (pyGt off.2 (.fin THRESHOLD_USD))

/-- Digits of a natural number, most significant first (Python `str(n)`
for `n ≥ 0`). -/
def natStr (n : ℕ) : PyStr := Nat.toDigits 10 n

/-- Group a digit string with commas every three digits from the right:
the `,` option of Python's format spec. -/
def chunk3 : PyStr → List PyStr
  | [] => []
  | [a] => [[a]]
  | [a, b] => [[a, b]]
  | a :: b :: c :: rest => [a, b, c] :: chunk3 rest

/-- Join pieces with a separator (Python `sep.join(pieces)`). -/
def pyJoin (sep : PyStr) : List PyStr → PyStr
  | [] => []
  | [x] => x
  | x :: y :: ys => x ++ sep ++ pyJoin sep (y :: ys)

/-- Python `format(n, ",")` for a nonnegative integer. -/
def commaNat (n : ℕ) : PyStr :=
  pyJoin [','] (((chunk3 (natStr n).reverse).reverse).map List.reverse)

/-- Python `f"{z:,}"` for an integer. -/
def commaInt (z : ℤ) : PyStr :=
  if z < 0 then '-' :: commaNat z.natAbs else commaNat z.natAbs

/-- Round to the nearest integer, ties to even (Python's `.0f` rounding on
the exact value; binary-double rounding is outside the model). -/
def roundHalfEven (q : ℚ) : ℤ :=
  if q - ⌊q⌋ < (1 : ℚ)/2 then ⌊q⌋
  else if (1 : ℚ)/2 < q - ⌊q⌋ then ⌊q⌋ + 1
  else if 2 ∣ ⌊q⌋ then ⌊q⌋ else ⌊q⌋ + 1

/-- Python `f"{x:,.0f}"` on a float (infinities and NaN format as their
names; the `-0` rendering of negative values rounding to zero is outside
the model and unreachable in the report). -/
def formatFloat0 : PyF → PyStr
  | .fin q => commaInt (roundHalfEven q)
  | .inf => "inf".toList
  | .ninf => "-inf".toList
  | .nan => "nan".toList

/-- `f'${float(finnhub_total):,.0f}' if finnhub_total else 'N/A'` from
src/main.py line 126; `float` of an unparseable string raises. -/
def totalDisplay (ft : Option PyStr) : Except String PyStr :=
  if pyFalsy ft then .ok "N/A".toList
  else
    match ft with
    | none => .ok "N/A".toList
    | some t =>
      match pyFloat t with
      | none => .error "ValueError"
      | some g => .ok ('$' :: formatFloat0 g)

/-- The f-string block appended to `matches` (src/main.py lines 121-126). -/
def entryText (symbol name exchange status price : PyStr) (shares_int : ℤ)
    (offer : PyF) (tot : PyStr) : PyStr :=
  symbol ++ " (".toList ++ name ++ ")\n  Exchange: ".toList ++ exchange ++
  "\n  Status: ".toList ++ status ++ "\n  Price: ".toList ++ price ++
  " | Shares: ".toList ++ commaInt shares_int ++
  "\n  Est. Offer: $".toList ++ formatFloat0 offer ++
  "\n  Finnhub totalSharesValue: ".toList ++ tot

/-- One iteration of the loop of `run` (src/main.py lines 90-127):
`.ok none` when the record is skipped, `.ok (some block)` when a formatted
block is appended to `matches`, `.error` when the iteration raises. -/
def processIpo (today : PyStr) (ipo : Ipo) : Except String (Option PyStr) :=
  let ipo_date := pyGet ipo.date (some "N/A".toList)
  let symbol := pyGet ipo.symbol none
  let name := pyGet ipo.name (some "N/A".toList)
  let exchange := pyGet ipo.exchange (some "N/A".toList)
  let status := pyLower (orEmpty (pyGet ipo.status (some "N/A".toList)))
  let price_raw := pyGet ipo.price none
  let shares := pyGet ipo.numberOfShares none
  if ipo_date ≠ some today then .ok none
  else if ¬(status = "expected".toList ∨ status = "priced".toList) then .ok none
  else if pyFalsy exchange = true ∨
      (pyIn "NASDAQ".toList (pyStrOf exchange) = false ∧
       pyIn "NYSE".toList (pyStrOf exchange) = false) then .ok none
  else if pyFalsy symbol = true ∨ priceAbsent price_raw = true ∨
      sharesAbsent shares = true then .ok none
  else
    match compute_offer price_raw shares with
    | .error e => .error e
    | .ok off =>
      if pyGt off.2 (.fin THRESHOLD_USD) then
        match pyIntOfFloat shares with
        | .error e => .error e
        | .ok shares_int =>
          match totalDisplay (pyGet ipo.totalSharesValue none) with
          | .error e => .error e
          | .ok tot =>
            .ok (some (entryText (pyStrOf symbol) (pyStrOf name)
              (pyStrOf exchange) status (pyStrOf price_raw) shares_int off.2 tot))
      else .ok none

/-- The accumulation loop of `run` building the match-block list
(src/main.py lines 89-127). -/
def loopMatches (today : PyStr) : List Ipo → List PyStr → Except String (List PyStr)
  | [], acc => .ok acc
  | ipo :: rest, acc =>
    match processIpo today ipo with
    | .error e => .error e
    | .ok none => loopMatches today rest acc
    | .ok (some entry) => loopMatches today rest (acc ++ [entry])

/-- Loop plus report assembly: the filter-and-format pipeline of `run`
(src/main.py lines 89-138) with the reference date and fetched records as
inputs and the `(subject, body)` pair as output; I/O, prints and the
error-email harness are outside the core. -/
def runCore (today : PyStr) (ipos : List Ipo) : Except String (PyStr × PyStr) :=
  match loopMatches today ipos [] with
  | .error e => .error e
  | .ok found =>
    match found with
    | m :: ms =>
      .ok ("IPO Report [".toList ++ today ++ "]: ".toList ++
             natStr (m :: ms).length ++ " tickers > $200M".toList,
           "Same-day US IPOs exceeding $200M:\n\n".toList ++
             pyJoin "\n---------------------------------------\n".toList (m :: ms))
    | [] =>
      .ok ("IPO Report [".toList ++ today ++ "]: No tickers > $200M".toList,
           "Automation ran successfully. No same-day US IPOs exceeded $200M (price × shares).".toList)

/-- Per-record restatement of the loop: process the records independently,
in fetch order, collecting the produced blocks.  Used to state that the
accumulator loop neither reorders, drops, nor duplicates entries. -/
def entriesSpec (today : PyStr) : List Ipo → Except String (List PyStr)
  | [] => .ok []
  | ipo :: rest =>
    match processIpo today ipo with
    | .error e => .error e
    | .ok none => entriesSpec today rest
    | .ok (some entry) =>
      match entriesSpec today rest with
      | .error e => .error e
      | .ok tail => .ok (entry :: tail)

/-- A record field holding the string `s`. -/
def fieldStr (s : String) : Option (Option PyStr) := some (some s.toList)

/-- Sample record: admitted (offer 20 × 20,000,000 = $400M > $200M). -/
def recBig : Ipo :=
  ⟨fieldStr "2025-06-30", fieldStr "AAA", fieldStr "Aaa Corp", fieldStr "NASDAQ Global",
   fieldStr "Priced", fieldStr "10-20", fieldStr "20000000", fieldStr "500000000"⟩

/-- Sample record whose price field is the two-hyphen string `"--"`. -/
def recDashDash : Ipo :=
  ⟨fieldStr "2025-06-30", fieldStr "DDD", fieldStr "Ddd", fieldStr "NASDAQ",
   fieldStr "priced", fieldStr "--", fieldStr "1000", none⟩

/-- Sample record whose share count is the string `"inf"`. -/
def recInf : Ipo :=
  ⟨fieldStr "2025-06-30", fieldStr "EEE", fieldStr "Eee", fieldStr "NASDAQ",
   fieldStr "priced", fieldStr "10-20", fieldStr "inf", none⟩

instance {ε α : Type} [DecidableEq ε] [DecidableEq α] : DecidableEq (Except ε α) := fun a b =>
  match a, b with
  | .error e, .error f =>
    if h : e = f then .isTrue (by rw [h]) else .isFalse (fun hc => h (Except.error.inj hc))
  | .ok x, .ok y =>
    if h : x = y then .isTrue (by rw [h]) else .isFalse (fun hc => h (Except.ok.inj hc))
  | .error _, .ok _ => .isFalse (fun hc => Except.noConfusion hc)
  | .ok _, .error _ => .isFalse (fun hc => Except.noConfusion hc)

/-- `dropWhile` jumps over a non-matching pivot: the part after the pivot is
kept verbatim. -/
theorem dropWhile_append_pivot (p : Char → Bool) {c : Char} (hc : p c = false)
    (u w : PyStr) : List.dropWhile p (u ++ c :: w) = List.dropWhile p u ++ c :: w := by
  induction u with
  | nil => simp [List.dropWhile_cons, hc]
  | cons d t ih =>
    by_cases h : p d
    · simpa [List.dropWhile_cons, h] using ih
    · simp [List.dropWhile_cons, h]

theorem lstrip_append_pivot {c : Char} (hc : pyWS c = false) (u w : PyStr) :
    lstrip (u ++ c :: w) = lstrip u ++ c :: w :=
  dropWhile_append_pivot pyWS hc u w

theorem rstrip_append_pivot {c : Char} (hc : pyWS c = false) (u w : PyStr) :
    rstrip (u ++ c :: w) = u ++ c :: rstrip w := by
  unfold rstrip
  rw [show (u ++ c :: w).reverse = w.reverse ++ c :: u.reverse by simp,
    dropWhile_append_pivot pyWS hc]
  simp

theorem dropWhile_idem (p : Char → Bool) (l : PyStr) :
    List.dropWhile p (List.dropWhile p l) = List.dropWhile p l := by
  induction l with
  | nil => simp
  | cons d t ih =>
    by_cases h : p d
    · simpa [List.dropWhile_cons, h] using ih
    · simp [List.dropWhile_cons, h]

theorem lstrip_idem (l : PyStr) : lstrip (lstrip l) = lstrip l :=
  dropWhile_idem pyWS l

theorem rstrip_idem (l : PyStr) : rstrip (rstrip l) = rstrip l := by
  unfold rstrip
  rw [List.reverse_reverse, dropWhile_idem]

theorem dropWhile_append_of_all {p : Char → Bool} {u : PyStr}
    (hall : ∀ x ∈ u, p x = true) (w : PyStr) :
    List.dropWhile p (u ++ w) = List.dropWhile p w := by
  induction u with
  | nil => simp
  | cons d t ih =>
    have hd : p d = true := hall d (by simp)
    simp only [List.cons_append, List.dropWhile_cons, hd, if_pos]
    exact ih fun x hx => hall x (by simp [hx])

theorem head_lstrip {l : PyStr} {c : Char} {u : PyStr} (h : lstrip l = c :: u) :
    pyWS c = false := by
  induction l with
  | nil => simp [lstrip] at h
  | cons d t ih =>
    by_cases hd : pyWS d
    · exact ih (by simpa [lstrip, List.dropWhile_cons, hd] using h)
    · simp only [lstrip, List.dropWhile_cons, hd, if_neg] at h
      cases h
      simpa using hd

theorem mem_lstrip {x : Char} {l : PyStr} (h : x ∈ lstrip l) : x ∈ l :=
  (List.dropWhile_sublist pyWS).subset h

theorem mem_rstrip {x : Char} {l : PyStr} (h : x ∈ rstrip l) : x ∈ l := by
  unfold rstrip at h
  rw [List.mem_reverse] at h
  simpa using (List.dropWhile_sublist pyWS).subset h

theorem mem_pyStrip {x : Char} {l : PyStr} (h : x ∈ pyStrip l) : x ∈ l :=
  mem_lstrip (mem_rstrip h)

theorem rstrip_eq_nil_of_all {l : PyStr} (hall : ∀ x ∈ l, pyWS x = true) :
    rstrip l = [] := by
  unfold rstrip
  rw [List.dropWhile_eq_nil_iff.mpr fun x hx => hall x (List.mem_reverse.mp hx)]
  rfl

theorem strip_comm (l : PyStr) : lstrip (rstrip l) = rstrip (lstrip l) := by
  cases h : lstrip l with
  | nil =>
    have hall : ∀ x ∈ l, pyWS x = true := List.dropWhile_eq_nil_iff.mp h
    rw [rstrip_eq_nil_of_all hall]
    simp [lstrip, rstrip]
  | cons c u =>
    have hc : pyWS c = false := head_lstrip h
    have hdecomp : l = l.takeWhile pyWS ++ c :: u := by
      conv_lhs => rw [← List.takeWhile_append_dropWhile pyWS l]
      rw [show List.dropWhile pyWS l = c :: u from h]
    have hT : ∀ x ∈ l.takeWhile pyWS, pyWS x = true := fun x hx =>
      List.mem_takeWhile_imp hx
    have h1 : rstrip l = l.takeWhile pyWS ++ c :: rstrip u := by
      conv_lhs => rw [hdecomp]
      rw [rstrip_append_pivot hc]
    have h2 : rstrip (c :: u) = c :: rstrip u := by
      simpa using rstrip_append_pivot hc [] u
    rw [h2, h1,
      show lstrip (List.takeWhile pyWS l ++ c :: rstrip u) = lstrip (c :: rstrip u) from
        dropWhile_append_of_all hT _]
    simp [lstrip, List.dropWhile_cons, hc]

theorem pyStrip_idem (l : PyStr) : pyStrip (pyStrip l) = pyStrip l := by
  unfold pyStrip
  rw [strip_comm (lstrip l), lstrip_idem, rstrip_idem]

theorem pyStrip_lstrip (l : PyStr) : pyStrip (lstrip l) = pyStrip l := by
  unfold pyStrip
  rw [lstrip_idem]

theorem pyStrip_rstrip (l : PyStr) : pyStrip (rstrip l) = pyStrip l := by
  unfold pyStrip
  rw [strip_comm, rstrip_idem]

theorem pyFloat_pyStrip (l : PyStr) : pyFloat (pyStrip l) = pyFloat l := by
  unfold pyFloat
  rw [pyStrip_idem]

theorem pyFloat_of_pyStrip_nil {l : PyStr} (h : pyStrip l = []) : pyFloat l = none := by
  unfold pyFloat
  rw [h]
  decide

theorem pyStrip_ne_nil_of_pyFloat {l : PyStr} {v : PyF} (h : pyFloat l = some v) :
    pyStrip l ≠ [] := by
  intro hnil
  rw [pyFloat_of_pyStrip_nil hnil] at h
  cases h

theorem pyStrip_eq_nil_of_rstrip_nil {l : PyStr} (h : rstrip l = []) : pyStrip l = [] := by
  have hrev : List.dropWhile pyWS l.reverse = [] := by
    simpa [rstrip] using congrArg List.reverse h
  have hall : ∀ x ∈ l, pyWS x = true := fun x hx =>
    List.dropWhile_eq_nil_iff.mp hrev x (List.mem_reverse.mpr hx)
  have h2 : lstrip l = [] := List.dropWhile_eq_nil_iff.mpr hall
  unfold pyStrip
  rw [h2]
  rfl

theorem splitOnChar_ne_nil (sep : Char) (l : PyStr) : splitOnChar sep l ≠ [] := by
  induction l with
  | nil => simp [splitOnChar]
  | cons c cs ih =>
    by_cases h : c = sep
    · simp [splitOnChar, h]
    · simp only [splitOnChar, if_neg h]
      cases hs : splitOnChar sep cs with
      | nil => simp
      | cons p ps => simp

theorem splitOnChar_of_not_mem {sep : Char} {l : PyStr} (h : sep ∉ l) :
    splitOnChar sep l = [l] := by
  induction l with
  | nil => rfl
  | cons c cs ih =>
    have hc : ¬c = sep := fun hc => h (by simp [hc])
    have hcs : sep ∉ cs := fun hm => h (by simp [hm])
    simp only [splitOnChar, if_neg hc, ih hcs]

theorem splitOnChar_append_pivot {sep : Char} {u : PyStr} (h : sep ∉ u) (w : PyStr) :
    splitOnChar sep (u ++ sep :: w) = u :: splitOnChar sep w := by
  induction u with
  | nil => simp [splitOnChar]
  | cons d t ih =>
    have hd : ¬d = sep := fun hd => h (by simp [hd])
    have ht : sep ∉ t := fun hm => h (by simp [hm])
    simp only [List.cons_append, splitOnChar, if_neg hd, List.append_eq, ih ht]

theorem not_mem_of_mem_splitOnChar {sep : Char} {l : PyStr} {p : PyStr}
    (h : p ∈ splitOnChar sep l) : sep ∉ p := by
  induction l generalizing p with
  | nil =>
    simp only [splitOnChar, List.mem_singleton] at h
    subst h
    simp
  | cons c cs ih =>
    by_cases hc : c = sep
    · simp only [splitOnChar, if_pos hc, List.mem_cons] at h
      rcases h with h | h
      · subst h; simp
      · exact ih h
    · simp only [splitOnChar, if_neg hc] at h
      cases hs : splitOnChar sep cs with
      | nil => exact absurd hs (splitOnChar_ne_nil sep cs)
      | cons q qs =>
        rw [hs] at h
        rcases List.mem_cons.mp h with h | h
        · subst h
          intro hm
          rcases List.mem_cons.mp hm with hm | hm
          · exact hc hm.symm
          · exact ih (hs ▸ List.mem_cons_self q qs) hm
        · exact ih (hs ▸ List.mem_cons_of_mem q h)

/-- Early-exit branch of `parse_price_range`: cleaned input empty or a lone
dash. -/
theorem parse_of_clean_trivial {s : PyStr}
    (h : cleanPrice s = [] ∨ cleanPrice s = ['-']) :
    parse_price_range (some s) = .ok (.fin 0, .fin 0) := by
  simp only [parse_price_range]
  rw [if_pos h]

/-- Two-or-more-fragment branch of `parse_price_range`. -/
theorem parse_of_parts_two {s p0 p1 : PyStr} {rest : List PyStr}
    (hmem : '-' ∈ cleanPrice s) (hne : cleanPrice s ≠ ['-'])
    (hparts : partsOf (cleanPrice s) = p0 :: p1 :: rest) :
    parse_price_range (some s) =
      (match pyFloat p0 with
       | none => .ok (.fin 0, .fin 0)
       | some low =>
         match pyFloat p1 with
         | none => .ok (.fin 0, .fin 0)
         | some high => .ok (low, high)) := by
  simp only [parse_price_range]
  rw [if_neg (by
    rintro (hnil | hd)
    · rw [hnil] at hmem; exact absurd hmem (List.not_mem_nil '-')
    · exact hne hd), if_pos hmem, hparts]

/-- Single-fragment branch of `parse_price_range`. -/
theorem parse_of_parts_one {s p0 : PyStr}
    (hmem : '-' ∈ cleanPrice s) (hne : cleanPrice s ≠ ['-'])
    (hparts : partsOf (cleanPrice s) = [p0]) :
    parse_price_range (some s) =
      (match pyFloat p0 with
       | none => .ok (.fin 0, .fin 0)
       | some v => .ok (v, v)) := by
  simp only [parse_price_range]
  rw [if_neg (by
    rintro (hnil | hd)
    · rw [hnil] at hmem; exact absurd hmem (List.not_mem_nil '-')
    · exact hne hd), if_pos hmem, hparts]

/-- Zero-fragment branch of `parse_price_range`: the uncaught `IndexError`. -/
theorem parse_of_parts_zero {s : PyStr}
    (hmem : '-' ∈ cleanPrice s) (hne : cleanPrice s ≠ ['-'])
    (hparts : partsOf (cleanPrice s) = []) :
    parse_price_range (some s) = .error "IndexError" := by
  simp only [parse_price_range]
  rw [if_neg (by
    rintro (hnil | hd)
    · rw [hnil] at hmem; exact absurd hmem (List.not_mem_nil '-')
    · exact hne hd), if_pos hmem, hparts]

/-- Hyphen-free branch of `parse_price_range`. -/
theorem parse_of_no_hyphen {s : PyStr}
    (hmem : '-' ∉ cleanPrice s) (hnil : cleanPrice s ≠ []) :
    parse_price_range (some s) =
      (match pyFloat (cleanPrice s) with
       | none => .ok (.fin 0, .fin 0)
       | some v => .ok (v, v)) := by
  simp only [parse_price_range]
  rw [if_neg (by
    rintro (h | hd)
    · exact hnil h
    · rw [hd] at hmem; exact hmem (List.mem_singleton_self '-')), if_neg hmem]

theorem parseMantissa_nonneg {l : PyStr} {q : ℚ} (h : parseMantissa l = some q) :
    0 ≤ q := by
  unfold parseMantissa at h
  split at h
  · split_ifs at h
    cases h
    positivity
  · split_ifs at h
    cases h
    positivity
  · cases h

theorem parseDecimal_nonneg {l : PyStr} {q : ℚ} (h : parseDecimal l = some q) :
    0 ≤ q := by
  unfold parseDecimal at h
  split at h
  · exact parseMantissa_nonneg h
  · split at h
    · rename_i qm e hm he
      cases h
      exact mul_nonneg (parseMantissa_nonneg hm) (le_of_lt (zpow_pos (by norm_num) e))
    · cases h

theorem parseUnsignedF_not_neg {l : PyStr} {v : PyF} (h : parseUnsignedF l = some v) :
    pyLt v (.fin 0) = false := by
  simp only [parseUnsignedF] at h
  split_ifs at h with h1 h2
  · cases h; rfl
  · cases h; rfl
  · rcases hd : parseDecimal l with _ | q <;> rw [hd] at h
    · cases h
    · simp only [Option.map_some'] at h
      cases h
      have hq : 0 ≤ q := parseDecimal_nonneg hd
      simp only [pyLt, decide_eq_false_iff_not]
      exact not_lt.mpr hq

theorem pyFloat_not_neg_of_no_hyphen {l : PyStr} {v : PyF} (hm : '-' ∉ l)
    (h : pyFloat l = some v) : pyLt v (.fin 0) = false := by
  unfold pyFloat pyFloatCore at h
  rcases hs : pyStrip l with _ | ⟨c, r⟩ <;> rw [hs] at h <;> dsimp only at h
  · exact parseUnsignedF_not_neg h
  · have hcl : c ∈ l := mem_pyStrip (by rw [hs]; exact List.mem_cons_self c r)
    have hcne : ¬(c = '-') := fun he => hm (he ▸ hcl)
    by_cases h1 : c = '+'
    · rw [if_pos h1] at h
      exact parseUnsignedF_not_neg h
    · rw [if_neg h1, if_neg hcne] at h
      exact parseUnsignedF_not_neg h

theorem filter_dollar_eq_self {l : PyStr} (h : '$' ∉ l) :
    l.filter (fun c => c != '$') = l :=
  List.filter_eq_self.mpr fun a ha => bne_iff_ne.mpr fun he => h (he ▸ ha)

theorem cleanPrice_pivot {a b : PyStr} (hda : '$' ∉ a) (hdb : '$' ∉ b) :
    cleanPrice (a ++ '-' :: b) = lstrip a ++ '-' :: rstrip b := by
  unfold cleanPrice pyStrip
  rw [lstrip_append_pivot (by decide), rstrip_append_pivot (by decide),
    List.filter_append, List.filter_cons,
    filter_dollar_eq_self (fun hm => hda (mem_lstrip hm)),
    filter_dollar_eq_self (fun hm => hdb (mem_rstrip hm)),
    if_pos (show ('-' != '$') = true by decide)]

theorem partsOf_pivot {a b : PyStr} (hna : '-' ∉ a) (hnb : '-' ∉ b)
    (hA : pyStrip a ≠ []) (hB : pyStrip b ≠ []) :
    partsOf (lstrip a ++ '-' :: rstrip b) = [pyStrip a, pyStrip b] := by
  unfold partsOf
  rw [splitOnChar_append_pivot (fun hm => hna (mem_lstrip hm)),
    splitOnChar_of_not_mem (fun hm => hnb (mem_rstrip hm))]
  simp only [List.map_cons, List.map_nil, pyStrip_lstrip, pyStrip_rstrip]
  rw [List.filter_cons, List.filter_cons]
  simp [List.isEmpty_iff, hA, hB]

theorem pyStrip_eq_nil_of_lstrip_nil {l : PyStr} (h : lstrip l = []) :
    pyStrip l = [] := by
  unfold pyStrip
  rw [h]
  rfl

theorem not_hyphen_of_mem_partsOf {s p : PyStr} (h : p ∈ partsOf s) : '-' ∉ p := by
  unfold partsOf at h
  have h2 := List.mem_of_mem_filter h
  rcases List.mem_map.mp h2 with ⟨piece, hpiece, rfl⟩
  intro hm
  exact not_mem_of_mem_splitOnChar hpiece (mem_pyStrip hm)

/-- Complete case analysis of a successful `parse_price_range` run: the
result is the zero pair, or comes from the first two fragments, the sole
fragment, or the whole hyphen-free cleaned string. -/
theorem parse_ok_cases {raw : Option PyStr} {l h : PyF}
    (hok : parse_price_range raw = .ok (l, h)) :
    (l = .fin 0 ∧ h = .fin 0) ∨
    (∃ s p0 p1 rest, raw = some s ∧ partsOf (cleanPrice s) = p0 :: p1 :: rest ∧
      pyFloat p0 = some l ∧ pyFloat p1 = some h) ∨
    (∃ s p0, raw = some s ∧ partsOf (cleanPrice s) = [p0] ∧
      pyFloat p0 = some l ∧ h = l) ∨
    (∃ s, raw = some s ∧ '-' ∉ cleanPrice s ∧
      pyFloat (cleanPrice s) = some l ∧ h = l) := by
  rcases raw with _ | s
  · left
    cases hok
    exact ⟨rfl, rfl⟩
  by_cases h0 : cleanPrice s = [] ∨ cleanPrice s = ['-']
  · rw [parse_of_clean_trivial h0] at hok
    cases hok
    exact Or.inl ⟨rfl, rfl⟩
  have hne : cleanPrice s ≠ ['-'] := (not_or.mp h0).2
  have hnil : cleanPrice s ≠ [] := (not_or.mp h0).1
  by_cases h1 : '-' ∈ cleanPrice s
  · rcases hp : partsOf (cleanPrice s) with _ | ⟨p0, _ | ⟨p1, rest⟩⟩
    · rw [parse_of_parts_zero h1 hne hp] at hok
      cases hok
    · rw [parse_of_parts_one h1 hne hp] at hok
      rcases hf : pyFloat p0 with _ | v <;> rw [hf] at hok <;> cases hok
      · exact Or.inl ⟨rfl, rfl⟩
      · exact Or.inr (Or.inr (Or.inl ⟨s, p0, rfl, hp, hf, rfl⟩))
    · rw [parse_of_parts_two h1 hne hp] at hok
      rcases hf0 : pyFloat p0 with _ | v0 <;> rw [hf0] at hok
      · cases hok
        exact Or.inl ⟨rfl, rfl⟩
      rcases hf1 : pyFloat p1 with _ | v1 <;> rw [hf1] at hok <;> cases hok
      · exact Or.inl ⟨rfl, rfl⟩
      · exact Or.inr (Or.inl ⟨s, p0, p1, rest, rfl, hp, hf0, hf1⟩)
  · rw [parse_of_no_hyphen h1 hnil] at hok
    rcases hf : pyFloat (cleanPrice s) with _ | v <;> rw [hf] at hok <;> cases hok
    · exact Or.inl ⟨rfl, rfl⟩
    · exact Or.inr (Or.inr (Or.inr ⟨s, rfl, h1, hf, rfl⟩))

theorem partsOf_pivot_right_empty {a : PyStr} (hna : '-' ∉ a) (hA : pyStrip a ≠ []) :
    partsOf (lstrip a ++ ['-']) = [pyStrip a] := by
  unfold partsOf
  rw [show (lstrip a ++ ['-'] : PyStr) = lstrip a ++ '-' :: [] from rfl,
    splitOnChar_append_pivot (fun hm => hna (mem_lstrip hm))]
  simp only [splitOnChar, List.map_cons, List.map_nil, pyStrip_lstrip]
  rw [List.filter_cons, List.filter_cons,
    if_pos (by simpa [List.isEmpty_iff] using hA)]
  simp [pyStrip, lstrip, rstrip]

theorem partsOf_pivot_left_empty {b : PyStr} (hnb : '-' ∉ b) (hB : pyStrip b ≠ []) :
    partsOf ('-' :: rstrip b) = [pyStrip b] := by
  unfold partsOf
  rw [show ('-' :: rstrip b : PyStr) = [] ++ '-' :: rstrip b from rfl,
    splitOnChar_append_pivot (List.not_mem_nil '-'),
    splitOnChar_of_not_mem (fun hm => hnb (mem_rstrip hm))]
  simp only [List.map_cons, List.map_nil, pyStrip_rstrip]
  rw [List.filter_cons, if_neg (by decide), List.filter_cons,
    if_pos (by simpa [List.isEmpty_iff] using hB)]
  rfl

theorem cleanPrice_pivot2 {a b : PyStr} (c : PyStr) (hda : '$' ∉ a) (hdb : '$' ∉ b) :
    cleanPrice (a ++ '-' :: (b ++ '-' :: c)) =
      lstrip a ++ '-' :: (b ++ '-' :: (rstrip c).filter (fun x => x != '$')) := by
  unfold cleanPrice pyStrip
  rw [lstrip_append_pivot (by decide), rstrip_append_pivot (by decide),
    rstrip_append_pivot (by decide), List.filter_append, List.filter_cons,
    if_pos (show ('-' != '$') = true by decide), List.filter_append, List.filter_cons,
    if_pos (show ('-' != '$') = true by decide),
    filter_dollar_eq_self (fun hm => hda (mem_lstrip hm)),
    filter_dollar_eq_self hdb]

theorem partsOf_pivot2 {a b : PyStr} (c' : PyStr) (hna : '-' ∉ a) (hnb : '-' ∉ b)
    (hA : pyStrip a ≠ []) (hB : pyStrip b ≠ []) :
    ∃ rest, partsOf (lstrip a ++ '-' :: (b ++ '-' :: c')) =
      pyStrip a :: pyStrip b :: rest := by
  unfold partsOf
  rw [splitOnChar_append_pivot (fun hm => hna (mem_lstrip hm)),
    splitOnChar_append_pivot hnb]
  simp only [List.map_cons, pyStrip_lstrip]
  rw [List.filter_cons, if_pos (by simpa [List.isEmpty_iff] using hA),
    List.filter_cons, if_pos (by simpa [List.isEmpty_iff] using hB)]
  exact ⟨_, rfl⟩

/-- C10: for every input, neither component of a pair returned by
`parse_price_range` is strictly negative (every `-` in the cleaned string is
consumed as a separator by the split, so no parsed fragment carries a minus
sign), and in particular the input `"-5"` yields `(5.0, 5.0)`. -/
theorem C10_parse_price_nonnegative :
    (∀ (raw : Option PyStr) (lo hi : PyF), parse_price_range raw = .ok (lo, hi) →
      pyLt lo (.fin 0) = false ∧ pyLt hi (.fin 0) = false) ∧
    parse_price_range (some "-5".toList) = .ok (.fin 5, .fin 5) := by
  constructor
  · intro raw lo hi hok
    rcases parse_ok_cases hok with ⟨rfl, rfl⟩ | ⟨s, p0, p1, rest, rfl, hp, hf0, hf1⟩ |
      ⟨s, p0, rfl, hp, hf, rfl⟩ | ⟨s, rfl, hnm, hf, rfl⟩
    · exact ⟨by decide, by decide⟩
    · have h0 : '-' ∉ p0 := not_hyphen_of_mem_partsOf (by rw [hp]; simp)
      have h1 : '-' ∉ p1 := not_hyphen_of_mem_partsOf (by rw [hp]; simp)
      exact ⟨pyFloat_not_neg_of_no_hyphen h0 hf0, pyFloat_not_neg_of_no_hyphen h1 hf1⟩
    · have h0 : '-' ∉ p0 := not_hyphen_of_mem_partsOf (by rw [hp]; simp)
      have hnn := pyFloat_not_neg_of_no_hyphen h0 hf
      exact ⟨hnn, hnn⟩
    · have hnn := pyFloat_not_neg_of_no_hyphen hnm hf
      exact ⟨hnn, hnn⟩
  · decide

/-- Witness for C10 at the concrete input `"7"`. -/
theorem C10_witness :
    pyLt (.fin 7) (.fin 0) = false ∧ pyLt (.fin 7) (.fin 0) = false :=
  C10_parse_price_nonnegative.1 (some "7".toList) (.fin 7) (.fin 7) (by decide)

/-- C5 counterexample: the input `"60-50"` parses to `(60.0, 50.0)`, whose
components violate `low <= high`. -/
theorem C5_counterexample :
    parse_price_range (some "60-50".toList) = .ok (.fin 60, .fin 50) ∧
    pyLe (.fin 60) (.fin 50) = false := by decide

/-- C5 (amended): every pair returned by `parse_price_range` is either
diagonal (`low = high`, all single-value paths) or consists of the first
two parsed fragments in their given order — so `low <= high` holds exactly
when the two-sided range is written in nondecreasing order, and is not an
invariant of the normalizer. -/
theorem C5_price_pair_shape :
    ∀ (raw : Option PyStr) (lo hi : PyF), parse_price_range raw = .ok (lo, hi) →
      lo = hi ∨
      (∃ s p0 p1 rest, raw = some s ∧ partsOf (cleanPrice s) = p0 :: p1 :: rest ∧
        pyFloat p0 = some lo ∧ pyFloat p1 = some hi) := by
  intro raw lo hi hok
  rcases parse_ok_cases hok with ⟨rfl, rfl⟩ | hcase | ⟨s, p0, rfl, hp, hf, rfl⟩ |
    ⟨s, rfl, hnm, hf, rfl⟩
  · exact Or.inl rfl
  · exact Or.inr hcase
  · exact Or.inl rfl
  · exact Or.inl rfl

/-- Witness for C5 (amended) at the concrete input `"60-50"`. -/
theorem C5_witness :
    (PyF.fin 60 = PyF.fin 50) ∨
    (∃ s p0 p1 rest, (some "60-50".toList : Option PyStr) = some s ∧
      partsOf (cleanPrice s) = p0 :: p1 :: rest ∧
      pyFloat p0 = some (.fin 60) ∧ pyFloat p1 = some (.fin 50)) :=
  C5_price_pair_shape (some "60-50".toList) (.fin 60) (.fin 50) (by decide)

/-- C4 counterexample: in `"1-2-x"` the third fragment `"x"` fails numeric
parsing, yet the result is `(1.0, 2.0)`, not the claimed `(0.0, 0.0)`. -/
theorem C4_counterexample :
    partsOf (cleanPrice "1-2-x".toList) = ["1".toList, "2".toList, "x".toList] ∧
    pyFloat "x".toList = none ∧
    parse_price_range (some "1-2-x".toList) = .ok (.fin 1, .fin 2) ∧
    (PyF.fin 1, PyF.fin 2) ≠ (PyF.fin 0, PyF.fin 0) := by decide

/-- C4 (amended): `parse_price_range` returns `(0.0, 0.0)` on absent input,
on a cleaned string that is empty or a lone dash, and whenever a fragment
it actually consults fails numeric parsing — the whole hyphen-free string,
either of the first two fragments when at least two remain, or the sole
remaining fragment; fragments beyond the second are never parsed. -/
theorem C4_soft_fail_amended :
    parse_price_range none = .ok (.fin 0, .fin 0) ∧
    (∀ s : PyStr, cleanPrice s = [] ∨ cleanPrice s = ['-'] →
      parse_price_range (some s) = .ok (.fin 0, .fin 0)) ∧
    (∀ s : PyStr, '-' ∉ cleanPrice s → cleanPrice s ≠ [] →
      pyFloat (cleanPrice s) = none →
      parse_price_range (some s) = .ok (.fin 0, .fin 0)) ∧
    (∀ (s p0 p1 : PyStr) (rest : List PyStr), '-' ∈ cleanPrice s →
      cleanPrice s ≠ ['-'] → partsOf (cleanPrice s) = p0 :: p1 :: rest →
      (pyFloat p0 = none ∨ pyFloat p1 = none) →
      parse_price_range (some s) = .ok (.fin 0, .fin 0)) ∧
    (∀ (s p0 : PyStr), '-' ∈ cleanPrice s → cleanPrice s ≠ ['-'] →
      partsOf (cleanPrice s) = [p0] → pyFloat p0 = none →
      parse_price_range (some s) = .ok (.fin 0, .fin 0)) := by
  refine ⟨rfl, ?_, ?_, ?_, ?_⟩
  · exact fun s h => parse_of_clean_trivial h
  · intro s hnm hnil hf
    rw [parse_of_no_hyphen hnm hnil, hf]
  · intro s p0 p1 rest hmem hne hp hor
    rw [parse_of_parts_two hmem hne hp]
    rcases hor with hf0 | hf1
    · rw [hf0]
    · rcases hf0 : pyFloat p0 with _ | v0
      · rfl
      · rw [hf1]
  · intro s p0 hmem hne hp hf
    rw [parse_of_parts_one hmem hne hp, hf]

/-- Witness for C4 (amended) at the concrete input `"x"`. -/
theorem C4_witness : parse_price_range (some "x".toList) = .ok (.fin 0, .fin 0) :=
  C4_soft_fail_amended.2.2.1 "x".toList (by decide) (by decide) (by decide)

/-- C3: a price string `"<a>-<b>"` whose hyphen-delimited fragments `a` and
`b` are numeric (hence contain no `-` and, after the `$`-stripping that
precedes the split, no `$`) parses to `(a, b)`, first fragment as low and
second as high; fragments after the second are ignored entirely; and when
only one non-empty numeric fragment remains (`"<a>-"` or `"-<a>"`), the
result is `(v, v)`. -/
theorem C3_two_sided_and_single_fragment :
    (∀ (a b : PyStr) (va vb : PyF), '-' ∉ a → '-' ∉ b → '$' ∉ a → '$' ∉ b →
      pyFloat a = some va → pyFloat b = some vb →
      parse_price_range (some (a ++ '-' :: b)) = .ok (va, vb)) ∧
    (∀ (a b c : PyStr) (va vb : PyF), '-' ∉ a → '-' ∉ b → '$' ∉ a → '$' ∉ b →
      pyFloat a = some va → pyFloat b = some vb →
      parse_price_range (some (a ++ '-' :: (b ++ '-' :: c))) = .ok (va, vb)) ∧
    (∀ (a : PyStr) (v : PyF), '-' ∉ a → '$' ∉ a → pyFloat a = some v →
      parse_price_range (some (a ++ ['-'])) = .ok (v, v) ∧
      parse_price_range (some ('-' :: a)) = .ok (v, v)) := by
  refine ⟨?_, ?_, ?_⟩
  · intro a b va vb hna hnb hda hdb hfa hfb
    have hA := pyStrip_ne_nil_of_pyFloat hfa
    have hB := pyStrip_ne_nil_of_pyFloat hfb
    have hclean : cleanPrice (a ++ '-' :: b) = lstrip a ++ '-' :: rstrip b :=
      cleanPrice_pivot hda hdb
    have hmem : '-' ∈ cleanPrice (a ++ '-' :: b) := by
      rw [hclean]
      exact List.mem_append_right _ (List.mem_cons_self _ _)
    have hne : cleanPrice (a ++ '-' :: b) ≠ ['-'] := by
      rw [hclean]
      intro hco
      cases hla : lstrip a with
      | nil => exact hA (pyStrip_eq_nil_of_lstrip_nil hla)
      | cons x xs => rw [hla] at hco; simp at hco
    have hparts : partsOf (cleanPrice (a ++ '-' :: b)) = [pyStrip a, pyStrip b] := by
      rw [hclean]
      exact partsOf_pivot hna hnb hA hB
    rw [parse_of_parts_two hmem hne hparts, pyFloat_pyStrip, pyFloat_pyStrip, hfa, hfb]
  · intro a b c va vb hna hnb hda hdb hfa hfb
    have hA := pyStrip_ne_nil_of_pyFloat hfa
    have hB := pyStrip_ne_nil_of_pyFloat hfb
    have hclean := cleanPrice_pivot2 c hda hdb
    have hmem : '-' ∈ cleanPrice (a ++ '-' :: (b ++ '-' :: c)) := by
      rw [hclean]
      exact List.mem_append_right _ (List.mem_cons_self _ _)
    have hne : cleanPrice (a ++ '-' :: (b ++ '-' :: c)) ≠ ['-'] := by
      rw [hclean]
      intro hco
      cases hla : lstrip a with
      | nil => exact hA (pyStrip_eq_nil_of_lstrip_nil hla)
      | cons x xs => rw [hla] at hco; simp at hco
    obtain ⟨rest, hparts0⟩ :=
      partsOf_pivot2 ((rstrip c).filter (fun x => x != '$')) hna hnb hA hB
    have hparts : partsOf (cleanPrice (a ++ '-' :: (b ++ '-' :: c))) =
        pyStrip a :: pyStrip b :: rest := by
      rw [hclean]; exact hparts0
    rw [parse_of_parts_two hmem hne hparts, pyFloat_pyStrip, pyFloat_pyStrip, hfa, hfb]
  · intro a v hna hda hfa
    have hA := pyStrip_ne_nil_of_pyFloat hfa
    constructor
    · have hclean : cleanPrice (a ++ ['-']) = lstrip a ++ ['-'] := by
        have h0 : cleanPrice (a ++ '-' :: ([] : PyStr)) = lstrip a ++ '-' :: rstrip [] :=
          cleanPrice_pivot hda (List.not_mem_nil '$')
        simpa using h0
      have hmem : '-' ∈ cleanPrice (a ++ ['-']) := by
        rw [hclean]
        exact List.mem_append_right _ (List.mem_cons_self _ _)
      have hne : cleanPrice (a ++ ['-']) ≠ ['-'] := by
        rw [hclean]
        intro hco
        cases hla : lstrip a with
        | nil => exact hA (pyStrip_eq_nil_of_lstrip_nil hla)
        | cons x xs => rw [hla] at hco; simp at hco
      have hparts : partsOf (cleanPrice (a ++ ['-'])) = [pyStrip a] := by
        rw [hclean]
        exact partsOf_pivot_right_empty hna hA
      rw [parse_of_parts_one hmem hne hparts, pyFloat_pyStrip, hfa]
    · have hclean : cleanPrice ('-' :: a) = '-' :: rstrip a := by
        have h0 : cleanPrice (([] : PyStr) ++ '-' :: a) = lstrip [] ++ '-' :: rstrip a :=
          cleanPrice_pivot (List.not_mem_nil '$') hda
        simpa [lstrip] using h0
      have hmem : '-' ∈ cleanPrice ('-' :: a) := by
        rw [hclean]
        exact List.mem_cons_self _ _
      have hne : cleanPrice ('-' :: a) ≠ ['-'] := by
        rw [hclean]
        intro hco
        have h2 : rstrip a = [] := by injection hco
        exact hA (pyStrip_eq_nil_of_rstrip_nil h2)
      have hparts : partsOf (cleanPrice ('-' :: a)) = [pyStrip a] := by
        rw [hclean]
        exact partsOf_pivot_left_empty hna hA
      rw [parse_of_parts_one hmem hne hparts, pyFloat_pyStrip, hfa]

/-- Witness for C3 at the concrete input `"10-20"`. -/
theorem C3_witness :
    parse_price_range (some ("10".toList ++ '-' :: "20".toList)) =
      .ok (.fin 10, .fin 20) :=
  C3_two_sided_and_single_fragment.1 "10".toList "20".toList (.fin 10) (.fin 20)
    (by decide) (by decide) (by decide) (by decide) (by decide) (by decide)

/-- C2 (code bug): the price value `"--"` cleans to a string that contains a
hyphen, is not the lone-dash placeholder, and splits into zero non-empty
fragments, so `parts[-1]` raises an uncaught `IndexError`; a record carrying
that price passes the presence check and the exception propagates out of the
filter loop and aborts the run. -/
theorem C2_parse_raises_index_error :
    parse_price_range (some "--".toList) = .error "IndexError" ∧
    compute_offer (some "--".toList) (some "1000".toList) = .error "IndexError" ∧
    loopMatches "2025-06-30".toList [recDashDash] [] = .error "IndexError" ∧
    runCore "2025-06-30".toList [recDashDash] = .error "IndexError" := by decide

theorem sharesFloat_eq_zero {shares : Option PyStr}
    (h : shares = none ∨ ∀ s, shares = some s → pyFloat s = none) :
    sharesFloat shares = .fin 0 := by
  rcases shares with _ | s
  · rfl
  · rcases h with h | h
    · cases h
    · unfold sharesFloat
      dsimp only
      rw [h s rfl]

/-- C6 counterexample: with the shares field absent, the price `"--"` makes
`compute_offer` raise rather than return, and the price `"inf"` gives
`(nan, nan)` — in neither case is the output the claimed `(0.0, 0.0)`. -/
theorem C6_counterexample :
    compute_offer (some "--".toList) none = .error "IndexError" ∧
    compute_offer (some "inf".toList) none = .ok (.nan, .nan) ∧
    (PyF.nan, PyF.nan) ≠ (PyF.fin 0, PyF.fin 0) := by decide

/-- C6 (amended): whenever the price parser returns a pair, `compute_offer`
returns `(priceLow x sharesFloat, priceHigh x sharesFloat)` (it is a pure
function of its two arguments); an absent or non-numeric shares field
yields `sharesFloat = 0.0` without raising; and the output is `(0.0, 0.0)`
for such shares whenever the parsed price pair is finite — for an infinite
price bound the IEEE product with zero is NaN, and when the price parser
raises, `compute_offer` propagates the exception instead of returning. -/
theorem C6_compute_offer_amended :
    (∀ (price shares : Option PyStr) (lh : PyF × PyF),
      parse_price_range price = .ok lh →
      compute_offer price shares =
        .ok (pyMul lh.1 (sharesFloat shares), pyMul lh.2 (sharesFloat shares))) ∧
    (∀ shares : Option PyStr,
      (shares = none ∨ ∀ s, shares = some s → pyFloat s = none) →
      sharesFloat shares = .fin 0) ∧
    (∀ (price shares : Option PyStr) (q1 q2 : ℚ),
      parse_price_range price = .ok (.fin q1, .fin q2) →
      (shares = none ∨ ∀ s, shares = some s → pyFloat s = none) →
      compute_offer price shares = .ok (.fin 0, .fin 0)) := by
  refine ⟨?_, ?_, ?_⟩
  · intro price shares lh h
    unfold compute_offer
    rw [h]
  · exact fun shares h => sharesFloat_eq_zero h
  · intro price shares q1 q2 hp hsh
    unfold compute_offer
    rw [hp, sharesFloat_eq_zero hsh]
    simp [pyMul, mul_zero]

/-- Witness for C6 (amended) at price `"inf"` with absent shares. -/
theorem C6_witness : compute_offer (some "inf".toList) none = .ok (.nan, .nan) := by
  rw [C6_compute_offer_amended.1 (some "inf".toList) none (.inf, .inf) (by decide)]
  decide

theorem bool_eq_false {b : Bool} (h : ¬b = true) : b = false := by
  cases b
  · rfl
  · exact absurd rfl h

theorem eligible_reject_date (today : PyStr) (ipo : Ipo)
    (h : pyGet ipo.date (some "N/A".toList) ≠ some today) :
    eligible today ipo = .ok false := by
  simp only [eligible]
  rw [if_pos h]

theorem eligible_reject_status (today : PyStr) (ipo : Ipo)
    (h : ¬(pyLower (orEmpty (pyGet ipo.status (some "N/A".toList))) = "expected".toList ∨
          pyLower (orEmpty (pyGet ipo.status (some "N/A".toList))) = "priced".toList)) :
    eligible today ipo = .ok false := by
  simp only [eligible]
  by_cases h1 : pyGet ipo.date (some "N/A".toList) ≠ some today
  · rw [if_pos h1]
  · rw [if_neg h1, if_pos h]

theorem eligible_reject_exchange (today : PyStr) (ipo : Ipo)
    (h : pyFalsy (pyGet ipo.exchange (some "N/A".toList)) = true ∨
      (pyIn "NASDAQ".toList (pyStrOf (pyGet ipo.exchange (some "N/A".toList))) = false ∧
       pyIn "NYSE".toList (pyStrOf (pyGet ipo.exchange (some "N/A".toList))) = false)) :
    eligible today ipo = .ok false := by
  simp only [eligible]
  by_cases h1 : pyGet ipo.date (some "N/A".toList) ≠ some today
  · rw [if_pos h1]
  rw [if_neg h1]
  by_cases h2 : ¬(pyLower (orEmpty (pyGet ipo.status (some "N/A".toList))) = "expected".toList ∨
      pyLower (orEmpty (pyGet ipo.status (some "N/A".toList))) = "priced".toList)
  · rw [if_pos h2]
  · rw [if_neg h2, if_pos h]

theorem eligible_reject_presence (today : PyStr) (ipo : Ipo)
    (h : pyFalsy (pyGet ipo.symbol none) = true ∨
      priceAbsent (pyGet ipo.price none) = true ∨
      sharesAbsent (pyGet ipo.numberOfShares none) = true) :
    eligible today ipo = .ok false := by
  simp only [eligible]
  by_cases h1 : pyGet ipo.date (some "N/A".toList) ≠ some today
  · rw [if_pos h1]
  rw [if_neg h1]
  by_cases h2 : ¬(pyLower (orEmpty (pyGet ipo.status (some "N/A".toList))) = "expected".toList ∨
      pyLower (orEmpty (pyGet ipo.status (some "N/A".toList))) = "priced".toList)
  · rw [if_pos h2]
  rw [if_neg h2]
  by_cases h3 : pyFalsy (pyGet ipo.exchange (some "N/A".toList)) = true ∨
      (pyIn "NASDAQ".toList (pyStrOf (pyGet ipo.exchange (some "N/A".toList))) = false ∧
       pyIn "NYSE".toList (pyStrOf (pyGet ipo.exchange (some "N/A".toList))) = false)
  · rw [if_pos h3]
  · rw [if_neg h3, if_pos h]

theorem eligible_pass (today : PyStr) (ipo : Ipo)
    (h1 : pyGet ipo.date (some "N/A".toList) = some today)
    (h2 : pyLower (orEmpty (pyGet ipo.status (some "N/A".toList))) = "expected".toList ∨
          pyLower (orEmpty (pyGet ipo.status (some "N/A".toList))) = "priced".toList)
    (h3 : pyFalsy (pyGet ipo.exchange (some "N/A".toList)) = false)
    (h4 : pyIn "NASDAQ".toList (pyStrOf (pyGet ipo.exchange (some "N/A".toList))) = true ∨
          pyIn "NYSE".toList (pyStrOf (pyGet ipo.exchange (some "N/A".toList))) = true)
    (h5 : pyFalsy (pyGet ipo.symbol none) = false)
    (h6 : priceAbsent (pyGet ipo.price none) = false)
    (h7 : sharesAbsent (pyGet ipo.numberOfShares none) = false) :
    eligible today ipo =
      (match compute_offer (pyGet ipo.price none) (pyGet ipo.numberOfShares none) with
       | .error e => .error e
       | .ok off => .ok (pyGt off.2 (.fin THRESHOLD_USD))) := by
  simp only [eligible]
  rw [if_neg (fun hc => hc h1), if_neg (not_not_intro h2),
    if_neg (by
      rintro (hc | ⟨hc1, hc2⟩)
      · rw [h3] at hc
        exact absurd hc (by decide)
      · rcases h4 with hc' | hc'
        · rw [hc1] at hc'
          exact absurd hc' (by decide)
        · rw [hc2] at hc'
          exact absurd hc' (by decide)),
    if_neg (by
      rintro (hc | hc | hc)
      · rw [h5] at hc
        exact absurd hc (by decide)
      · rw [h6] at hc
        exact absurd hc (by decide)
      · rw [h7] at hc
        exact absurd hc (by decide))]

theorem eligible_ok_true_elim {today : PyStr} {ipo : Ipo}
    (hco : eligible today ipo = .ok true) :
    pyGet ipo.date (some "N/A".toList) = some today ∧
    (pyLower (orEmpty (pyGet ipo.status (some "N/A".toList))) = "expected".toList ∨
     pyLower (orEmpty (pyGet ipo.status (some "N/A".toList))) = "priced".toList) ∧
    pyFalsy (pyGet ipo.exchange (some "N/A".toList)) = false ∧
    (pyIn "NASDAQ".toList (pyStrOf (pyGet ipo.exchange (some "N/A".toList))) = true ∨
     pyIn "NYSE".toList (pyStrOf (pyGet ipo.exchange (some "N/A".toList))) = true) ∧
    pyFalsy (pyGet ipo.symbol none) = false ∧
    priceAbsent (pyGet ipo.price none) = false ∧
    sharesAbsent (pyGet ipo.numberOfShares none) = false ∧
    (∃ off : PyF × PyF,
      compute_offer (pyGet ipo.price none) (pyGet ipo.numberOfShares none) = .ok off ∧
      pyGt off.2 (.fin THRESHOLD_USD) = true) := by
  by_cases h1 : pyGet ipo.date (some "N/A".toList) = some today
  case neg =>
    rw [eligible_reject_date today ipo h1] at hco
    exact absurd (Except.ok.inj hco) (by decide)
  by_cases h2 : pyLower (orEmpty (pyGet ipo.status (some "N/A".toList))) = "expected".toList ∨
      pyLower (orEmpty (pyGet ipo.status (some "N/A".toList))) = "priced".toList
  case neg =>
    rw [eligible_reject_status today ipo h2] at hco
    exact absurd (Except.ok.inj hco) (by decide)
  by_cases hex0 : pyFalsy (pyGet ipo.exchange (some "N/A".toList)) = true
  case pos =>
    rw [eligible_reject_exchange today ipo (Or.inl hex0)] at hco
    exact absurd (Except.ok.inj hco) (by decide)
  have hex : pyFalsy (pyGet ipo.exchange (some "N/A".toList)) = false := bool_eq_false hex0
  by_cases h4 : pyIn "NASDAQ".toList (pyStrOf (pyGet ipo.exchange (some "N/A".toList))) = true ∨
      pyIn "NYSE".toList (pyStrOf (pyGet ipo.exchange (some "N/A".toList))) = true
  case neg =>
    rw [not_or] at h4
    rw [eligible_reject_exchange today ipo
      (Or.inr ⟨bool_eq_false h4.1, bool_eq_false h4.2⟩)] at hco
    exact absurd (Except.ok.inj hco) (by decide)
  by_cases hsym0 : pyFalsy (pyGet ipo.symbol none) = true
  case pos =>
    rw [eligible_reject_presence today ipo (Or.inl hsym0)] at hco
    exact absurd (Except.ok.inj hco) (by decide)
  have hsym : pyFalsy (pyGet ipo.symbol none) = false := bool_eq_false hsym0
  by_cases hpr0 : priceAbsent (pyGet ipo.price none) = true
  case pos =>
    rw [eligible_reject_presence today ipo (Or.inr (Or.inl hpr0))] at hco
    exact absurd (Except.ok.inj hco) (by decide)
  have hpr : priceAbsent (pyGet ipo.price none) = false := bool_eq_false hpr0
  by_cases hsh0 : sharesAbsent (pyGet ipo.numberOfShares none) = true
  case pos =>
    rw [eligible_reject_presence today ipo (Or.inr (Or.inr hsh0))] at hco
    exact absurd (Except.ok.inj hco) (by decide)
  have hsh : sharesAbsent (pyGet ipo.numberOfShares none) = false := bool_eq_false hsh0
  rw [eligible_pass today ipo h1 h2 hex h4 hsym hpr hsh] at hco
  rcases hoff : compute_offer (pyGet ipo.price none) (pyGet ipo.numberOfShares none)
    with e | off <;> rw [hoff] at hco
  · exact absurd hco (by intro hc; cases hc)
  · exact ⟨h1, h2, hex, h4, hsym, hpr, hsh, off, rfl, Except.ok.inj hco⟩

/-- C1: the eligibility filter (src/main.py lines 90-116) admits a record
exactly when its date equals the reference date by string equality, its
lower-cased status is `"expected"` or `"priced"`, its exchange is truthy and
contains `"NASDAQ"` or `"NYSE"` as a case-sensitive substring, its symbol is
truthy, its price is not absent/empty/`"-"`, its share count is not
absent/empty, and the computed `offerHigh` strictly exceeds 200,000,000;
moreover each of the four early predicates rejects with a plain skip (never
an exception), whatever the later fields hold — the clauses short-circuit in
source order. -/
theorem C1_eligibility_filter (today : PyStr) (ipo : Ipo) :
    (eligible today ipo = .ok true ↔
      (pyGet ipo.date (some "N/A".toList) = some today ∧
       (pyLower (orEmpty (pyGet ipo.status (some "N/A".toList))) = "expected".toList ∨
        pyLower (orEmpty (pyGet ipo.status (some "N/A".toList))) = "priced".toList) ∧
       pyFalsy (pyGet ipo.exchange (some "N/A".toList)) = false ∧
       (pyIn "NASDAQ".toList (pyStrOf (pyGet ipo.exchange (some "N/A".toList))) = true ∨
        pyIn "NYSE".toList (pyStrOf (pyGet ipo.exchange (some "N/A".toList))) = true) ∧
       pyFalsy (pyGet ipo.symbol none) = false ∧
       priceAbsent (pyGet ipo.price none) = false ∧
       sharesAbsent (pyGet ipo.numberOfShares none) = false ∧
       (∃ off : PyF × PyF,
         compute_offer (pyGet ipo.price none) (pyGet ipo.numberOfShares none) = .ok off ∧
         pyGt off.2 (.fin THRESHOLD_USD) = true))) ∧
    (pyGet ipo.date (some "N/A".toList) ≠ some today → eligible today ipo = .ok false) ∧
    (¬(pyLower (orEmpty (pyGet ipo.status (some "N/A".toList))) = "expected".toList ∨
       pyLower (orEmpty (pyGet ipo.status (some "N/A".toList))) = "priced".toList) →
      eligible today ipo = .ok false) ∧
    (pyFalsy (pyGet ipo.exchange (some "N/A".toList)) = true ∨
      (pyIn "NASDAQ".toList (pyStrOf (pyGet ipo.exchange (some "N/A".toList))) = false ∧
       pyIn "NYSE".toList (pyStrOf (pyGet ipo.exchange (some "N/A".toList))) = false) →
      eligible today ipo = .ok false) ∧
    (pyFalsy (pyGet ipo.symbol none) = true ∨ priceAbsent (pyGet ipo.price none) = true ∨
      sharesAbsent (pyGet ipo.numberOfShares none) = true →
      eligible today ipo = .ok false) := by
  refine ⟨⟨fun hco => eligible_ok_true_elim hco, ?_⟩,
    eligible_reject_date today ipo, eligible_reject_status today ipo,
    eligible_reject_exchange today ipo, eligible_reject_presence today ipo⟩
  rintro ⟨h1, h2, h3, h4, h5, h6, h7, off, hoff, hgt⟩
  rw [eligible_pass today ipo h1 h2 h3 h4 h5 h6 h7, hoff]
  dsimp only
  rw [hgt]

/-- Witness for C1: a same-day NASDAQ record with status `"priced"`, price
`"10-20"` and shares `"inf"` is admitted (its offerHigh is `inf`). -/
theorem C1_witness : eligible "2025-06-30".toList recInf = .ok true :=
  (C1_eligibility_filter "2025-06-30".toList recInf).1.mpr
    ⟨by decide, by decide, by decide, by decide, by decide, by decide, by decide,
     (.inf, .inf), by decide, by decide⟩

/-- C8: the filter-plus-format pipeline is a pure function of the reference
date and the fetched record list — two runs on equal inputs produce
identical subject and body strings. -/
theorem C8_pipeline_deterministic :
    ∀ (today : PyStr) (ipos : List Ipo) (s1 b1 s2 b2 : PyStr),
      runCore today ipos = .ok (s1, b1) → runCore today ipos = .ok (s2, b2) →
      s1 = s2 ∧ b1 = b2 := by
  intro today ipos s1 b1 s2 b2 h1 h2
  rw [h1] at h2
  have h3 := Except.ok.inj h2
  exact ⟨congrArg Prod.fst h3, congrArg Prod.snd h3⟩

/-- Witness for C8 on a concrete run with an empty record list. -/
theorem C8_witness :
    ("IPO Report [2025-06-30]: No tickers > $200M".toList : PyStr) =
      "IPO Report [2025-06-30]: No tickers > $200M".toList ∧
    ("Automation ran successfully. No same-day US IPOs exceeded $200M (price × shares).".toList : PyStr) =
      "Automation ran successfully. No same-day US IPOs exceeded $200M (price × shares).".toList :=
  C8_pipeline_deterministic "2025-06-30".toList [] _ _ _ _ (by decide) (by decide)

theorem pyJoin_cons (sep : PyStr) (e : PyStr) (es : List PyStr) :
    pyJoin sep (e :: es) = e ++ (es.map (fun x => sep ++ x)).join := by
  induction es generalizing e with
  | nil => simp [pyJoin]
  | cons y ys ih => simp [pyJoin, ih y, List.append_assoc]

theorem loopMatches_entriesSpec (today : PyStr) :
    ∀ (ipos : List Ipo) (acc : List PyStr),
      loopMatches today ipos acc =
        (match entriesSpec today ipos with
         | .error e => .error e
         | .ok t => .ok (acc ++ t)) := by
  intro ipos
  induction ipos with
  | nil =>
    intro acc
    simp [loopMatches, entriesSpec]
  | cons ipo rest ih =>
    intro acc
    simp only [loopMatches, entriesSpec]
    rcases hpi : processIpo today ipo with e | o
    · rfl
    · rcases o with _ | entry
      · exact ih acc
      · dsimp only
        rw [ih (acc ++ [entry])]
        rcases hes : entriesSpec today rest with e2 | t <;> dsimp only
        simp

/-- C7: when the loop completes with match list `ms`, that list contains
exactly one formatted block per admitted record in fetch order (it equals
the independent per-record pass `entriesSpec`); an empty `ms` produces the
exact fixed "No tickers" subject and success-sentence body; a non-empty
`ms` produces the counted subject and a body that is the header followed by
the first block and then one separator-plus-block piece per further block —
no separator after the last block. -/
theorem C7_report_formatter :
    ∀ (today : PyStr) (ipos : List Ipo) (ms : List PyStr),
      loopMatches today ipos [] = .ok ms →
      entriesSpec today ipos = .ok ms ∧
      (ms = [] → runCore today ipos =
        .ok ("IPO Report [".toList ++ today ++ "]: No tickers > $200M".toList,
             "Automation ran successfully. No same-day US IPOs exceeded $200M (price × shares).".toList)) ∧
      (∀ (e : PyStr) (es : List PyStr), ms = e :: es → runCore today ipos =
        .ok ("IPO Report [".toList ++ today ++ "]: ".toList ++ natStr ms.length ++
               " tickers > $200M".toList,
             "Same-day US IPOs exceeding $200M:\n\n".toList ++ e ++
               (es.map
                 (fun x => "\n---------------------------------------\n".toList ++ x)).join)) := by
  intro today ipos ms hlm
  have hspec : entriesSpec today ipos = .ok ms := by
    have h := loopMatches_entriesSpec today ipos []
    rw [hlm] at h
    rcases hes : entriesSpec today ipos with e | t <;> rw [hes] at h
    · exact absurd h (by intro hc; cases hc)
    · dsimp only at h
      rw [List.nil_append] at h
      exact congrArg Except.ok (Except.ok.inj h).symm
  refine ⟨hspec, ?_, ?_⟩
  · rintro rfl
    unfold runCore
    rw [hlm]
  · rintro e es rfl
    unfold runCore
    rw [hlm]
    dsimp only
    rw [pyJoin_cons]
    simp [List.append_assoc]

/-- Witness for C7: a record whose date differs from the reference date is
skipped, giving the exact fixed empty-report subject and body. -/
theorem C7_witness :
    entriesSpec "1999-01-01".toList [recBig] = .ok [] ∧
    runCore "1999-01-01".toList [recBig] =
      .ok ("IPO Report [".toList ++ "1999-01-01".toList ++ "]: No tickers > $200M".toList,
           "Automation ran successfully. No same-day US IPOs exceeded $200M (price × shares).".toList) :=
  ⟨(C7_report_formatter "1999-01-01".toList [recBig] [] (by decide)).1,
   (C7_report_formatter "1999-01-01".toList [recBig] [] (by decide)).2.1 rfl⟩

theorem processIpo_pass (today : PyStr) (ipo : Ipo)
    (h1 : pyGet ipo.date (some "N/A".toList) = some today)
    (h2 : pyLower (orEmpty (pyGet ipo.status (some "N/A".toList))) = "expected".toList ∨
          pyLower (orEmpty (pyGet ipo.status (some "N/A".toList))) = "priced".toList)
    (h3 : pyFalsy (pyGet ipo.exchange (some "N/A".toList)) = false)
    (h4 : pyIn "NASDAQ".toList (pyStrOf (pyGet ipo.exchange (some "N/A".toList))) = true ∨
          pyIn "NYSE".toList (pyStrOf (pyGet ipo.exchange (some "N/A".toList))) = true)
    (h5 : pyFalsy (pyGet ipo.symbol none) = false)
    (h6 : priceAbsent (pyGet ipo.price none) = false)
    (h7 : sharesAbsent (pyGet ipo.numberOfShares none) = false) :
    processIpo today ipo =
      (match compute_offer (pyGet ipo.price none) (pyGet ipo.numberOfShares none) with
       | .error e => .error e
       | .ok off =>
         if pyGt off.2 (.fin THRESHOLD_USD) then
           match pyIntOfFloat (pyGet ipo.numberOfShares none) with
           | .error e => .error e
           | .ok shares_int =>
             match totalDisplay (pyGet ipo.totalSharesValue none) with
             | .error e => .error e
             | .ok tot =>
               .ok (some (entryText (pyStrOf (pyGet ipo.symbol none))
                 (pyStrOf (pyGet ipo.name (some "N/A".toList)))
                 (pyStrOf (pyGet ipo.exchange (some "N/A".toList)))
                 (pyLower (orEmpty (pyGet ipo.status (some "N/A".toList))))
                 (pyStrOf (pyGet ipo.price none)) shares_int off.2 tot))
         else .ok none) := by
  simp only [processIpo]
  rw [if_neg (fun hc => hc h1), if_neg (not_not_intro h2),
    if_neg (by
      rintro (hc | ⟨hc1, hc2⟩)
      · rw [h3] at hc
        exact absurd hc (by decide)
      · rcases h4 with hc' | hc'
        · rw [hc1] at hc'
          exact absurd hc' (by decide)
        · rw [hc2] at hc'
          exact absurd hc' (by decide)),
    if_neg (by
      rintro (hc | hc | hc)
      · rw [h5] at hc
        exact absurd hc (by decide)
      · rw [h6] at hc
        exact absurd hc (by decide)
      · rw [h7] at hc
        exact absurd hc (by decide))]

theorem pyGt_mul_fin_zero (x : PyF) :
    pyGt (pyMul x (.fin 0)) (.fin THRESHOLD_USD) = false := by
  cases x
  case fin q =>
    have h : pyMul (.fin q) (.fin 0) = .fin 0 := by
      simp [pyMul, mul_zero]
    rw [h]
    decide
  case inf => decide
  case ninf => decide
  case nan => decide

/-- C9 counterexample: the shares string `"inf"` converts to a nonzero float
and the record passes the threshold (`inf > 200,000,000`), yet constructing
its match entry raises `OverflowError` from `int(float("inf"))` — building
the entry for an admitted record is not total. -/
theorem C9_counterexample :
    eligible "2025-06-30".toList recInf = .ok true ∧
    pyGet recInf.numberOfShares none = some "inf".toList ∧
    pyFloat "inf".toList = some PyF.inf ∧
    processIpo "2025-06-30".toList recInf = .error "OverflowError" := by decide

/-- C9 (amended): for every record the filter admits, the shares field did
convert to a nonzero float inside `compute_offer`; and whenever that float
is finite and the `totalSharesValue` field is absent, empty, or parseable,
the match-entry construction succeeds — `int(float(shares))` can only raise
when the nonzero float is an infinity or NaN (e.g. shares `"inf"`), and the
entry can also fail on an unparseable non-empty `totalSharesValue`. -/
theorem C9_admitted_entry_amended :
    ∀ (today : PyStr) (ipo : Ipo), eligible today ipo = .ok true →
      (∃ s : PyStr, pyGet ipo.numberOfShares none = some s ∧
        ∃ f : PyF, pyFloat s = some f ∧ f ≠ .fin 0) ∧
      (∀ (s : PyStr) (q : ℚ), pyGet ipo.numberOfShares none = some s →
        pyFloat s = some (.fin q) →
        (∀ t : PyStr, pyGet ipo.totalSharesValue none = some t →
          t.isEmpty = false → (pyFloat t).isSome = true) →
        ∃ entry : PyStr, processIpo today ipo = .ok (some entry)) := by
  intro today ipo hel
  obtain ⟨h1, h2, h3, h4, h5, h6, h7, off, hoff, hgt⟩ := eligible_ok_true_elim hel
  rcases hpp : parse_price_range (pyGet ipo.price none) with e | lh
  · exfalso
    unfold compute_offer at hoff
    rw [hpp] at hoff
    exact absurd hoff (by intro hc; cases hc)
  have hoff2 : off = (pyMul lh.1 (sharesFloat (pyGet ipo.numberOfShares none)),
      pyMul lh.2 (sharesFloat (pyGet ipo.numberOfShares none))) := by
    unfold compute_offer at hoff
    rw [hpp] at hoff
    exact (Except.ok.inj hoff).symm
  subst hoff2
  dsimp only at hgt
  have hs_ex : ∃ s, pyGet ipo.numberOfShares none = some s := by
    cases hq : pyGet ipo.numberOfShares none with
    | none =>
      rw [hq] at h7
      exact absurd h7 (by decide)
    | some s => exact ⟨s, rfl⟩
  obtain ⟨s, hsh⟩ := hs_ex
  have hco : compute_offer (pyGet ipo.price none) (pyGet ipo.numberOfShares none) =
      .ok (pyMul lh.1 (sharesFloat (pyGet ipo.numberOfShares none)),
           pyMul lh.2 (sharesFloat (pyGet ipo.numberOfShares none))) := by
    unfold compute_offer
    rw [hpp]
  constructor
  · rcases hf : pyFloat s with _ | f
    · exfalso
      have hsf : sharesFloat (pyGet ipo.numberOfShares none) = .fin 0 := by
        rw [hsh]
        unfold sharesFloat
        dsimp only
        rw [hf]
      rw [hsf, pyGt_mul_fin_zero] at hgt
      exact absurd hgt (by decide)
    · refine ⟨s, hsh, f, hf, ?_⟩
      rintro rfl
      have hsf : sharesFloat (pyGet ipo.numberOfShares none) = .fin 0 := by
        rw [hsh]
        unfold sharesFloat
        dsimp only
        rw [hf]
      rw [hsf, pyGt_mul_fin_zero] at hgt
      exact absurd hgt (by decide)
  · intro s' q hs' hfq htot
    have hint : pyIntOfFloat (pyGet ipo.numberOfShares none) = .ok (pyTrunc q) := by
      unfold pyIntOfFloat
      rw [hs']
      dsimp only
      rw [hfq]
      rfl
    have htotok : ∃ ts, totalDisplay (pyGet ipo.totalSharesValue none) = .ok ts := by
      cases hft : pyGet ipo.totalSharesValue none with
      | none => exact ⟨"N/A".toList, rfl⟩
      | some t =>
        cases hte : t.isEmpty with
        | true =>
          refine ⟨"N/A".toList, ?_⟩
          unfold totalDisplay
          rw [if_pos (show pyFalsy (some t) = true by simp [pyFalsy, hte])]
        | false =>
          obtain ⟨g, hg⟩ := Option.isSome_iff_exists.mp (htot t hft hte)
          refine ⟨'$' :: formatFloat0 g, ?_⟩
          unfold totalDisplay
          rw [if_neg (show ¬pyFalsy (some t) = true by simp [pyFalsy, hte])]
          dsimp only
          rw [hg]
    obtain ⟨ts, hts⟩ := htotok
    have hfinal : processIpo today ipo =
        .ok (some (entryText (pyStrOf (pyGet ipo.symbol none))
          (pyStrOf (pyGet ipo.name (some "N/A".toList)))
          (pyStrOf (pyGet ipo.exchange (some "N/A".toList)))
          (pyLower (orEmpty (pyGet ipo.status (some "N/A".toList))))
          (pyStrOf (pyGet ipo.price none)) (pyTrunc q)
          (pyMul lh.2 (sharesFloat (pyGet ipo.numberOfShares none))) ts)) := by
      rw [processIpo_pass today ipo h1 h2 h3 h4 h5 h6 h7, hco]
      dsimp only
      rw [if_pos hgt, hint]
      dsimp only
      rw [hts]
    exact ⟨_, hfinal⟩

/-- Witness for C9 (amended) at the admitted record with shares `"inf"`. -/
theorem C9_witness :
    ∃ s : PyStr, pyGet recInf.numberOfShares none = some s ∧
      ∃ f : PyF, pyFloat s = some f ∧ f ≠ .fin 0 :=
  (C9_admitted_entry_amended "2025-06-30".toList recInf (by decide)).1
